import Mathlib

/-!
Verification of the Secure-MCP-Gateway core (policy engine, approval
manager, gateway orchestrator) against its natural-language specification.

The TypeScript sources under `packages/gateway-core/src` are shallowly
embedded as executable Lean definitions:

* JavaScript `Date` timestamps become `Int` milliseconds; an absent or
  invalid `Date` in a comparison position becomes `none` (an invalid date
  never compares `<` anything, matching `NaN` comparison semantics).
* The `Map<string, PendingApproval>` becomes an insertion-ordered
  association list with `Map.get`/`Map.set` semantics.
* `uuidv4()` calls become explicit `freshToken` / `callId` parameters.
* `async` methods and the audit-logger interface become pure functions
  returning, besides their value, the updated state and the ordered list
  of audit-sink notifications they perform; a thrown error becomes the
  `Except.error` alternative carrying the error message.
* Opaque payloads (`Record<string, unknown>` argument/metadata maps and
  the executor's output value) are modelled as uninterpreted strings,
  since the core never inspects them.
-/

set_option linter.unusedVariables false

namespace SecureMCP

/-- Embeds enum `OperationSeverity` from `types.ts`. -/
inductive OperationSeverity where
  | safe
  | low
  | medium
  | high
  | critical
deriving DecidableEq, Repr

/-- Embeds the `SEVERITY_ORDER` table from `policy-engine.ts`. -/
def SEVERITY_ORDER : OperationSeverity → Nat
  | .safe => 0
  | .low => 1
  | .medium => 2
  | .high => 3
  | .critical => 4

/-- Embeds the caller `type` union `'human' | 'agent' | 'service'` from `types.ts`. -/
inductive CallerType where
  | human
  | agent
  | service
deriving DecidableEq, Repr

/-- Opaque key-value payload (`Record<string, unknown>`); the core never
inspects the values, so they are modelled as uninterpreted strings. -/
abbrev OpaqueMap := List (String × String)

/-- Embeds interface `CallerIdentity` from `types.ts`. -/
structure CallerIdentity where
  id : String
  name : String
  type : CallerType
  metadata : Option OpaqueMap := none
deriving DecidableEq, Repr

/-- Embeds interface `ToolCallContext` from `types.ts`; `timestamp` is in
milliseconds. -/
structure ToolCallContext where
  callId : String
  tool : String
  action : String
  severity : OperationSeverity
  caller : CallerIdentity
  args : Option OpaqueMap := none
  timestamp : Int := 0
  metadata : Option OpaqueMap := none
deriving DecidableEq, Repr

/-- Embeds enum `PolicyEffect` from `types.ts`. -/
inductive PolicyEffect where
  | allow
  | deny
  | review
deriving DecidableEq, Repr

/-- Embeds interface `PolicyDecision` from `types.ts`. -/
structure PolicyDecision where
  effect : PolicyEffect
  reason : String
  rule : Option String := none
  approvalToken : Option String := none
deriving DecidableEq, Repr

/-- Embeds the `match` object of interface `PolicyRule` from `types.ts`
(the field is named `matchSpec` here because `match` is a Lean keyword).
The `custom` field holds an opaque predicate over the context. -/
structure MatchSpec where
  tool : Option String := none
  action : Option String := none
  minSeverity : Option OperationSeverity := none
  callerType : Option CallerType := none
  custom : Option (ToolCallContext → Bool) := none

/-- Embeds interface `PolicyRule` from `types.ts`. -/
structure PolicyRule where
  id : String
  description : Option String := none
  matchSpec : MatchSpec
  effect : PolicyEffect
  reason : Option String := none

/-- Embeds interface `PolicyConfig` from `types.ts`. -/
structure PolicyConfig where
  rules : List PolicyRule
  defaultEffect : PolicyEffect
  defaultReason : Option String := none

/-- JavaScript `a || b` on an optional string `a`: the fallback `b` is
used when `a` is absent or empty (the empty string is falsy). -/
def strOr : Option String → String → String
  | some s, d => if s == "" then d else s
  | none, d => d

/-- Lowercases a string into its character list; models the regex `i`
flag of `matchesPattern` by case-folding both sides. -/
def lowerChars (s : String) : List Char :=
  s.toList.map Char.toLower

/-- Embeds JavaScript `String.prototype.split` with a single-character
separator, as used by `pattern.split('*')` in `policy-engine.ts`. -/
def splitOnChar (sep : Char) : List Char → List (List Char)
  | [] => [[]]
  | c :: cs =>
    if c = sep then [] :: splitOnChar sep cs
    else
      match splitOnChar sep cs with
      | [] => [[c]]
      | g :: gs => (c :: g) :: gs

/-- The star-separated, case-folded segments of a glob pattern:
`pattern.split('*')`, lowercased. -/
def splitOnStar (pattern : String) : List (List Char) :=
  splitOnChar '*' (lowerChars pattern)

/-- JavaScript line terminators: a regex `.` without the `s` (dotAll)
flag matches any character except these four. -/
def isLineTerminator (c : Char) : Bool :=
  c = '\n' || c = '\r' || c = '\u2028' || c = '\u2029'

/-- A run of characters that the source regex's `.*` can consume: the
regexes in `policy-engine.ts` are built without the `s` flag, so the
run may not contain a line terminator. -/
def dotRun (w : List Char) : Bool :=
  w.all fun c => !isLineTerminator c

/-- Decides membership in the language of the regex fragment
`.*p₁.*p₂ ⋯ .*pₙ$` (each `pᵢ` a literal segment, regex-metacharacter
escaping in the source makes every non-star character literal): the
input must end after the segments, each preceded by a run of
non-line-terminator characters (no `s` flag on the source regex). -/
def dotStarChain : List (List Char) → List Char → Bool
  | [], r => r.isEmpty
  | [p], r => p.isSuffixOf r && dotRun (r.take (r.length - p.length))
  | p :: q :: ps, r =>
    (List.range (r.length + 1)).any fun i =>
      dotRun (r.take i) && p.isPrefixOf (r.drop i) &&
        dotStarChain (q :: ps) (r.drop (i + p.length))

/-- Embeds `PolicyEngine.matchesPattern` from `policy-engine.ts`: the
source compiles the glob into the anchored case-insensitive regex
`^e(p₀).*e(p₁) ⋯ .*e(pₙ)$` (no `s` flag) where
`p₀ … pₙ = pattern.split('*')` and `e` escapes regex metacharacters;
this is decided directly on case-folded character lists, with each `.*`
run restricted to non-line-terminator characters as JavaScript `.`
demands. -/
def matchesPattern (value pattern : String) : Bool :=
  match splitOnStar pattern with
  | [] => false
  | p :: ps =>
    p.isPrefixOf (lowerChars value) && dotStarChain ps ((lowerChars value).drop p.length)

/-- Embeds `PolicyEngine.matchesRule` from `policy-engine.ts`. Each
guard mirrors one `if` of the source; a present-but-empty string field
is falsy in JavaScript, so its check is skipped exactly as the source
does. -/
def matchesRule (context : ToolCallContext) (rule : PolicyRule) : Bool :=
  let m := rule.matchSpec
  (match m.tool with
   | some t => t == "" || matchesPattern context.tool t
   | none => true) &&
  (match m.action with
   | some a => a == "" || matchesPattern context.action a
   | none => true) &&
  (match m.minSeverity with
   | some ms => !(SEVERITY_ORDER context.severity < SEVERITY_ORDER ms : Bool)
   | none => true) &&
  (match m.callerType with
   | some ct => context.caller.type == ct
   | none => true) &&
  (match m.custom with
   | some f => f context
   | none => true)

/-- Embeds `PolicyEngine.getDefaultReason` from `policy-engine.ts`; the
`default` branch of the source's `switch` is unreachable because the
effect enum is closed. -/
def getDefaultReason (effect : PolicyEffect) (rule : Option PolicyRule) : String :=
  let ruleDesc := match rule with
    | some r => " (rule: " ++ r.id ++ ")"
    | none => ""
  match effect with
  | .allow => "Operation allowed by policy" ++ ruleDesc
  | .deny => "Operation denied by policy" ++ ruleDesc
  | .review => "Operation requires human approval" ++ ruleDesc

/-- The decision `evaluatePolicy` builds from a matched rule
(`policy-engine.ts` lines 58–69); `freshToken` stands for the
`uuidv4()` result. -/
def ruleDecision (freshToken : String) (rule : PolicyRule) : PolicyDecision :=
  { effect := rule.effect
    reason := strOr rule.reason (getDefaultReason rule.effect (some rule))
    rule := some rule.id
    approvalToken := if rule.effect = .review then some freshToken else none }

/-- The decision `evaluatePolicy` builds when no rule matched
(`policy-engine.ts` lines 74–83). -/
def defaultDecision (freshToken : String) (config : PolicyConfig) : PolicyDecision :=
  { effect := config.defaultEffect
    reason := strOr config.defaultReason (getDefaultReason config.defaultEffect none)
    rule := none
    approvalToken := if config.defaultEffect = .review then some freshToken else none }

/-- The rule-scanning loop of `PolicyEngine.evaluatePolicy` (first match
wins, default on fall-through). -/
def evalRulesList (freshToken : String) (config : PolicyConfig) (context : ToolCallContext) :
    List PolicyRule → PolicyDecision
  | [] => defaultDecision freshToken config
  | r :: rs =>
    if matchesRule context r then ruleDecision freshToken r
    else evalRulesList freshToken config context rs

/-- Embeds `PolicyEngine.evaluatePolicy` from `policy-engine.ts`;
`freshToken` stands for the `uuidv4()` value attached to review
decisions. -/
def evaluatePolicy (freshToken : String) (config : PolicyConfig) (context : ToolCallContext) :
    PolicyDecision :=
  evalRulesList freshToken config context config.rules

/-- Embeds the `PendingApproval` status union from `types.ts`. -/
inductive ApprovalStatus where
  | pending
  | approved
  | denied
  | expired
deriving DecidableEq, Repr

/-- The status string interpolated into "Approval is already ..." messages. -/
def statusString : ApprovalStatus → String
  | .pending => "pending"
  | .approved => "approved"
  | .denied => "denied"
  | .expired => "expired"

/-- Embeds interface `PendingApproval` from `types.ts`; times are in
milliseconds. `expiresAt = none` models both an absent `Date` and an
invalid one (`new Date(NaN)`), neither of which ever compares `<` a
current time. -/
structure PendingApproval where
  token : String
  context : ToolCallContext
  decision : PolicyDecision
  createdAt : Int
  expiresAt : Option Int := none
  status : ApprovalStatus
deriving DecidableEq, Repr

/-- Embeds interface `ApprovalResult` from `types.ts`. -/
structure ApprovalResult where
  success : Bool
  approval : Option PendingApproval := none
  error : Option String := none
deriving DecidableEq, Repr

/-- The `ApprovalManager` instance state: its `Map<string,
PendingApproval>` as an insertion-ordered association list, plus the
resolved `defaultTTL` configuration (`none` models an explicitly
`undefined` default TTL, which makes computed expiry dates invalid). -/
structure ApprovalManagerState where
  pendingApprovals : List (String × PendingApproval) := []
  defaultTTL : Option Int := some 3600000
deriving DecidableEq, Repr

/-- JavaScript `Map.prototype.get`: the value at the first (unique)
matching key. -/
def mapGet (entries : List (String × PendingApproval)) (token : String) :
    Option PendingApproval :=
  (entries.find? fun kv => kv.1 == token).map Prod.snd

/-- JavaScript `Map.prototype.set`: replaces the value at an existing
key in place, otherwise appends a new entry. -/
def mapSet (entries : List (String × PendingApproval)) (token : String)
    (value : PendingApproval) : List (String × PendingApproval) :=
  match entries with
  | [] => [(token, value)]
  | (k, v) :: rest =>
    if k == token then (token, value) :: rest
    else (k, v) :: mapSet rest token value

/-- Embeds `ApprovalManager.getApproval` from `approval-manager.ts`. -/
def getApproval (st : ApprovalManagerState) (token : String) : Option PendingApproval :=
  mapGet st.pendingApprovals token

/-- Embeds `ApprovalManager.createApproval` from `approval-manager.ts`;
`now` stands for `Date.now()`. The source computes
`expiresAt = ttl ? new Date(now + ttl) : new Date(now + defaultTTL)`,
so a falsy explicit `ttl` (absent or `0`) falls back to the default
TTL.  The `setTimeout` scheduling is modelled by `expireApproval` being
invocable by the environment at any later time. -/
def createApproval (st : ApprovalManagerState) (context : ToolCallContext)
    (decision : PolicyDecision) (ttl : Option Int) (now : Int) :
    Except String (PendingApproval × ApprovalManagerState) :=
  match decision.approvalToken with
  | none => .error "Cannot create approval without approval token"
  | some token =>
    let ttlTruthy : Bool := match ttl with
      | some t => t != 0
      | none => false
    let expiresAt : Option Int :=
      if ttlTruthy then ttl.map fun t => now + t
      else st.defaultTTL.map fun d => now + d
    let approval : PendingApproval :=
      { token := token
        context := context
        decision := decision
        createdAt := now
        expiresAt := expiresAt
        status := .pending }
    .ok (approval, { st with pendingApprovals := mapSet st.pendingApprovals token approval })

/-- Embeds `ApprovalManager.grantApproval` from `approval-manager.ts`;
`now` stands for `new Date()` in the lazy expiry comparison.  The
`approver` parameter is part of the source signature but never read by
the body. -/
def grantApproval (st : ApprovalManagerState) (token : String)
    (approver : CallerIdentity) (now : Int) : ApprovalResult × ApprovalManagerState :=
  match getApproval st token with
  | none => ({ success := false, error := some "Approval token not found" }, st)
  | some approval =>
    if approval.status ≠ .pending then
      ({ success := false
         error := some ("Approval is already " ++ statusString approval.status) }, st)
    else if (match approval.expiresAt with
             | some e => decide (e < now)
             | none => false) then
      let updated := { approval with status := ApprovalStatus.expired }
      ({ success := false, error := some "Approval token has expired" },
       { st with pendingApprovals := mapSet st.pendingApprovals token updated })
    else
      let updated := { approval with status := ApprovalStatus.approved }
      ({ success := true, approval := some updated },
       { st with pendingApprovals := mapSet st.pendingApprovals token updated })

/-- Embeds `ApprovalManager.denyApproval` from `approval-manager.ts`.
Unlike `grantApproval` it takes no current time: the source performs no
expiry comparison on the deny path.  The `denier` parameter is part of
the source signature but never read by the body. -/
def denyApproval (st : ApprovalManagerState) (token : String)
    (denier : CallerIdentity) : ApprovalResult × ApprovalManagerState :=
  match getApproval st token with
  | none => ({ success := false, error := some "Approval token not found" }, st)
  | some approval =>
    if approval.status ≠ .pending then
      ({ success := false
         error := some ("Approval is already " ++ statusString approval.status) }, st)
    else
      let updated := { approval with status := ApprovalStatus.denied }
      ({ success := true, approval := some updated },
       { st with pendingApprovals := mapSet st.pendingApprovals token updated })

/-- Embeds `ApprovalManager.expireApproval` from `approval-manager.ts`
(the `setTimeout` callback): flips the record to `expired` only while
it is still `pending`. -/
def expireApproval (st : ApprovalManagerState) (token : String) : ApprovalManagerState :=
  match getApproval st token with
  | some approval =>
    if approval.status = .pending then
      { st with pendingApprovals :=
          mapSet st.pendingApprovals token { approval with status := ApprovalStatus.expired } }
    else st
  | none => st

/-- Opaque executor output (`unknown` in the source). -/
abbrev Output := String

/-- Embeds the `result` field of interface `GatewayCallResult` from
`gateway.ts`. -/
structure ExecutionResult where
  success : Bool
  output : Option Output := none
  error : Option String := none
deriving DecidableEq, Repr

/-- Embeds interface `GatewayCallResult` from `gateway.ts`. -/
structure GatewayCallResult where
  allowed : Bool
  decision : PolicyDecision
  approvalToken : Option String := none
  context : ToolCallContext
  result : Option ExecutionResult := none
deriving DecidableEq, Repr

/-- One notification to the audit sink (`IAuditLogger` calls in
`gateway.ts`), plus a marker event recording one invocation of the
caller-supplied executor. -/
inductive AuditEvent where
  | toolCall (context : ToolCallContext) (decision : PolicyDecision)
  | approvalGranted (context : ToolCallContext) (approver : CallerIdentity)
  | approvalDenied (context : ToolCallContext) (denier : CallerIdentity)
  | executionSuccess (context : ToolCallContext) (output : Output)
  | executionFailure (context : ToolCallContext) (errorMessage : String)
  | executorRun
deriving DecidableEq, Repr

/-- The `SecureMCPGateway` instance state: the policy engine's config
and the approval manager's state. -/
structure GatewayState where
  policyConfig : PolicyConfig
  approvals : ApprovalManagerState

/-- The behaviour of one invocation of a caller-supplied executor:
`.ok output` for a resolved promise, `.error message` for a throw or
rejection. -/
abbrev ExecutorBehavior := Except String Output

/-- The context object `evaluateToolCall` builds in `gateway.ts`;
`callId` stands for the `uuidv4()` value and `now` for `new Date()`. -/
def mkToolCallContext (callId tool action : String) (severity : OperationSeverity)
    (caller : CallerIdentity) (args metadata : Option OpaqueMap) (now : Int) :
    ToolCallContext :=
  { callId := callId
    tool := tool
    action := action
    severity := severity
    caller := caller
    args := args
    timestamp := now
    metadata := metadata }

/-- Embeds `SecureMCPGateway.evaluateToolCall` from `gateway.ts`.
Returns the call result (or a thrown error message), the updated
gateway state, and the ordered audit-sink notifications.  The source's
`default` switch branch is unreachable because the effect enum is
closed. -/
def evaluateToolCall (st : GatewayState) (callId freshToken tool action : String)
    (severity : OperationSeverity) (caller : CallerIdentity)
    (args metadata : Option OpaqueMap) (now : Int) :
    Except String GatewayCallResult × GatewayState × List AuditEvent :=
  let context := mkToolCallContext callId tool action severity caller args metadata now
  let decision := evaluatePolicy freshToken st.policyConfig context
  let events := [AuditEvent.toolCall context decision]
  match decision.effect with
  | .allow =>
    (.ok { allowed := true, decision := decision, context := context }, st, events)
  | .deny =>
    (.ok { allowed := false, decision := decision, context := context }, st, events)
  | .review =>
    match createApproval st.approvals context decision none now with
    | .error e => (.error e, st, events)
    | .ok (approval, ast) =>
      (.ok { allowed := false
             decision := decision
             approvalToken := some approval.token
             context := context },
       { st with approvals := ast }, events)

/-- Embeds `SecureMCPGateway.executeToolCall` from `gateway.ts`: policy
evaluation followed, on an allowed call, by one executor invocation
whose failure is captured into the result, never re-thrown. -/
def executeToolCall (st : GatewayState) (callId freshToken tool action : String)
    (severity : OperationSeverity) (caller : CallerIdentity)
    (executor : ExecutorBehavior) (args metadata : Option OpaqueMap) (now : Int) :
    Except String GatewayCallResult × GatewayState × List AuditEvent :=
  match evaluateToolCall st callId freshToken tool action severity caller args metadata now with
  | (.error e, st1, events) => (.error e, st1, events)
  | (.ok evalResult, st1, events) =>
    if !evalResult.allowed then (.ok evalResult, st1, events)
    else
      match executor with
      | .ok output =>
        (.ok { evalResult with result := some { success := true, output := some output } },
         st1, events ++ [.executorRun, .executionSuccess evalResult.context output])
      | .error msg =>
        (.ok { evalResult with result := some { success := false, error := some msg } },
         st1, events ++ [.executorRun, .executionFailure evalResult.context msg])

/-- Embeds `SecureMCPGateway.grantApprovalAndExecute` from `gateway.ts`.
On a failed grant the source throws `new Error(result.error || 'Failed
to grant approval')`; the store mutation performed by the grant (none
on an unknown token, a flip to `expired` on a lazily-expired one)
persists across the throw. -/
def grantApprovalAndExecute (st : GatewayState) (approvalToken : String)
    (approver : CallerIdentity) (executor : ExecutorBehavior) (now : Int) :
    Except String GatewayCallResult × GatewayState × List AuditEvent :=
  let granted := grantApproval st.approvals approvalToken approver now
  let st1 : GatewayState := { st with approvals := granted.2 }
  match granted.1.success, granted.1.approval with
  | true, some approval =>
    let context := approval.context
    let events := [AuditEvent.approvalGranted context approver]
    match executor with
    | .ok output =>
      (.ok { allowed := true
             decision := approval.decision
             context := context
             result := some { success := true, output := some output } },
       st1, events ++ [.executorRun, .executionSuccess context output])
    | .error msg =>
      (.ok { allowed := true
             decision := approval.decision
             context := context
             result := some { success := false, error := some msg } },
       st1, events ++ [.executorRun, .executionFailure context msg])
  | true, none => (.error (strOr granted.1.error "Failed to grant approval"), st1, [])
  | false, _ => (.error (strOr granted.1.error "Failed to grant approval"), st1, [])

/-- Embeds `SecureMCPGateway.denyApproval` from `gateway.ts`. -/
def gatewayDenyApproval (st : GatewayState) (approvalToken : String)
    (denier : CallerIdentity) :
    Except String Unit × GatewayState × List AuditEvent :=
  let denied := denyApproval st.approvals approvalToken denier
  let st1 : GatewayState := { st with approvals := denied.2 }
  match denied.1.success, denied.1.approval with
  | true, some approval =>
    (.ok (), st1, [AuditEvent.approvalDenied approval.context denier])
  | true, none => (.error (strOr denied.1.error "Failed to deny approval"), st1, [])
  | false, _ => (.error (strOr denied.1.error "Failed to deny approval"), st1, [])

/-- The number of execution-failure notifications in an audit trace. -/
def countExecutionFailures (events : List AuditEvent) : Nat :=
  (events.filter fun e => match e with
    | .executionFailure _ _ => true
    | _ => false).length

/-- The number of executor invocations recorded in a trace. -/
def countExecutorRuns (events : List AuditEvent) : Nat :=
  (events.filter fun e => match e with
    | .executorRun => true
    | _ => false).length

/-- Boolean substring test, used to state what an error message does or
does not contain. -/
def strContains (s sub : String) : Bool :=
  decide (sub.toList <:+: s.toList)

/-- Case-insensitive substring test. -/
def strContainsCI (s sub : String) : Bool :=
  decide (lowerChars sub <:+: lowerChars s)

/-- Stated from the claim's words, for comparison with the source's
`matchesRule`: a match-spec is fully satisfied when every present field
matches (tool glob, action glob, minimum severity, caller kind, custom
predicate) and absent fields match anything. -/
def specRuleSatisfied (context : ToolCallContext) (rule : PolicyRule) : Prop :=
  (∀ t, rule.matchSpec.tool = some t → matchesPattern context.tool t = true) ∧
  (∀ a, rule.matchSpec.action = some a → matchesPattern context.action a = true) ∧
  (∀ ms, rule.matchSpec.minSeverity = some ms →
    SEVERITY_ORDER ms ≤ SEVERITY_ORDER context.severity) ∧
  (∀ ct, rule.matchSpec.callerType = some ct → context.caller.type = ct) ∧
  (∀ f, rule.matchSpec.custom = some f → f context = true)

/-- The amended form of full satisfaction: as `specRuleSatisfied`, except
that a present-but-empty tool or action glob is treated as absent
(matches anything), reflecting JavaScript falsiness of the empty
string in the source's guards. -/
def specRuleSatisfiedAmended (context : ToolCallContext) (rule : PolicyRule) : Prop :=
  (∀ t, rule.matchSpec.tool = some t → t ≠ "" → matchesPattern context.tool t = true) ∧
  (∀ a, rule.matchSpec.action = some a → a ≠ "" → matchesPattern context.action a = true) ∧
  (∀ ms, rule.matchSpec.minSeverity = some ms →
    SEVERITY_ORDER ms ≤ SEVERITY_ORDER context.severity) ∧
  (∀ ct, rule.matchSpec.callerType = some ct → context.caller.type = ct) ∧
  (∀ f, rule.matchSpec.custom = some f → f context = true)

/-- The concatenation `w₁ ++ p₁ ++ w₂ ++ p₂ ⋯ ++ wₙ ++ pₙ` of segments
`pᵢ` with interleaved runs `wᵢ`; the denotation of the regex fragment
`.*p₁.*p₂ ⋯ .*pₙ` names exactly the strings of this shape. -/
def chainConcat : List (List Char) → List (List Char) → List Char
  | [], _ => []
  | _ :: _, [] => []
  | p :: ps, w :: ws => w ++ p ++ chainConcat ps ws

/-- The glob pattern with each `*` replaced by a run of characters: the
case-folded segments `p₀ … pₙ` of the pattern, interleaved with the
runs `w₁ … wₙ` as `p₀ ++ w₁ ++ p₁ ⋯ ++ wₙ ++ pₙ`. -/
def starFill : List (List Char) → List (List Char) → List Char
  | [], _ => []
  | [p], _ => p
  | p :: q :: ps, [] => p
  | p :: q :: ps, w :: ws => p ++ w ++ starFill (q :: ps) ws

/-- Stated from the claim's words, for comparison with the source's
`matchesPattern`: the value equals (case-insensitively) the pattern
with each `*` replaced by some possibly-empty run of characters, all
other pattern characters taken literally.  For a star-free pattern the
single segment is the whole pattern, so this degenerates to equality up
to case. -/
def matchesGlobSpec (value pattern : String) : Prop :=
  ∃ ws : List (List Char), ws.length + 1 = (splitOnStar pattern).length ∧
    lowerChars value = starFill (splitOnStar pattern) ws

/-- The amended form of the glob property: as `matchesGlobSpec`, except
that each run substituted for a `*` must be free of line terminators,
because the source regex is compiled without the `s` (dotAll) flag and
JavaScript `.` does not match them. -/
def matchesGlobSpecAmended (value pattern : String) : Prop :=
  ∃ ws : List (List Char), ws.length + 1 = (splitOnStar pattern).length ∧
    (∀ w ∈ ws, dotRun w = true) ∧
    lowerChars value = starFill (splitOnStar pattern) ws

/-! Concrete sample data used by counterexamples, code-behaviour
theorems and witnesses. -/

/-- A sample agent caller. -/
def agentCaller : CallerIdentity :=
  { id := "agent-1", name := "Agent", type := .agent }

/-- A sample human caller (used as approver / denier). -/
def humanCaller : CallerIdentity :=
  { id := "human-1", name := "Human", type := .human }

/-- A sample tool-call context. -/
def sampleContext : ToolCallContext :=
  { callId := "call-1"
    tool := "jira"
    action := "add_comment"
    severity := .medium
    caller := agentCaller
    timestamp := 0 }

/-- A sample review decision carrying token `"tok-1"`. -/
def reviewDecision : PolicyDecision :=
  { effect := .review, reason := "needs review", approvalToken := some "tok-1" }

/-- A pending approval whose expiry time (50) is already in the past at
observation time 100. -/
def pendingExpiredRec : PendingApproval :=
  { token := "tok-1"
    context := sampleContext
    decision := reviewDecision
    createdAt := 0
    expiresAt := some 50
    status := .pending }

/-- A store holding only `pendingExpiredRec`. -/
def storePendingExpired : ApprovalManagerState :=
  { pendingApprovals := [("tok-1", pendingExpiredRec)], defaultTTL := some 60000 }

/-- A pending approval expiring far in the future (999999). -/
def pendingFreshRec : PendingApproval :=
  { pendingExpiredRec with expiresAt := some 999999 }

/-- A store holding only `pendingFreshRec`. -/
def storePendingFresh : ApprovalManagerState :=
  { pendingApprovals := [("tok-1", pendingFreshRec)], defaultTTL := some 60000 }

/-- An already-denied approval record. -/
def deniedRec : PendingApproval :=
  { pendingExpiredRec with status := .denied }

/-- A store holding only `deniedRec`. -/
def storeDenied : ApprovalManagerState :=
  { pendingApprovals := [("tok-1", deniedRec)], defaultTTL := some 60000 }

/-- An empty approval store with a 60-second default TTL (the value the
repository's own test suite configures). -/
def emptyStore60k : ApprovalManagerState :=
  { pendingApprovals := [], defaultTTL := some 60000 }

/-- The record `createApproval` actually produces from `reviewDecision`
with explicit `ttl = 0` at time 1000 under a 60000 ms default TTL. -/
def zeroTtlCreatedRec : PendingApproval :=
  { token := "tok-1"
    context := sampleContext
    decision := reviewDecision
    createdAt := 1000
    expiresAt := some 61000
    status := .pending }

/-- The store state after that creation. -/
def zeroTtlStore : ApprovalManagerState :=
  { pendingApprovals := [("tok-1", zeroTtlCreatedRec)], defaultTTL := some 60000 }

/-- A policy with no rules that allows by default. -/
def allowConfig : PolicyConfig :=
  { rules := [], defaultEffect := .allow, defaultReason := some "ok" }

/-- A gateway over `allowConfig` with an empty approval store. -/
def allowGateway : GatewayState :=
  { policyConfig := allowConfig, approvals := { pendingApprovals := [], defaultTTL := some 3600000 } }

/-- A rule requiring critical severity (not satisfied by
`sampleContext`, whose severity is medium). -/
def ruleCritical : PolicyRule :=
  { id := "rule-critical"
    matchSpec := { minSeverity := some .critical }
    effect := .deny
    reason := some "too risky" }

/-- A rule matching agent callers (satisfied by `sampleContext`),
without an explicit reason. -/
def ruleAgent : PolicyRule :=
  { id := "rule-agent"
    matchSpec := { callerType := some .agent }
    effect := .review }

/-- A two-rule policy whose second rule is the first one satisfied by
`sampleContext`. -/
def twoRuleConfig : PolicyConfig :=
  { rules := [ruleCritical, ruleAgent]
    defaultEffect := .allow
    defaultReason := some "default ok" }

/-- A rule whose tool glob is present but empty. -/
def ruleEmptyTool : PolicyRule :=
  { id := "rule-empty-tool"
    matchSpec := { tool := some "" }
    effect := .deny
    reason := some "empty pattern" }

/-- A policy whose only rule is `ruleEmptyTool`, allowing by default. -/
def emptyPatternConfig : PolicyConfig :=
  { rules := [ruleEmptyTool], defaultEffect := .allow, defaultReason := some "default ok" }

/-! Helper lemmas about the association-list map operations. -/

/-- After `set`, `get` at the same key yields the new value. -/
theorem mapGet_mapSet_self (l : List (String × PendingApproval)) (k : String)
    (v : PendingApproval) : mapGet (mapSet l k v) k = some v := by
  induction l with
  | nil => simp [mapSet, mapGet, List.find?]
  | cons hd tl ih =>
    obtain ⟨k', v'⟩ := hd
    by_cases h : k' = k
    · subst h
      simp [mapSet, mapGet, List.find?]
    · have hb : (k' == k) = false := beq_eq_false_iff_ne.mpr h
      simp only [mapSet, hb, if_neg (by simpa using h)]
      simpa [mapGet, List.find?, hb] using ih

/-- After `set` at key `k`, `get` at a different key is unchanged. -/
theorem mapGet_mapSet_ne (l : List (String × PendingApproval)) (k t : String)
    (v : PendingApproval) (h : k ≠ t) : mapGet (mapSet l k v) t = mapGet l t := by
  induction l with
  | nil => simp [mapSet, mapGet, List.find?, beq_eq_false_iff_ne.mpr h]
  | cons hd tl ih =>
    obtain ⟨k', v'⟩ := hd
    by_cases hk : k' = k
    · subst hk
      simp [mapSet, mapGet, List.find?, beq_eq_false_iff_ne.mpr h]
    · have hb : (k' == k) = false := beq_eq_false_iff_ne.mpr hk
      by_cases ht : k' = t
      · subst ht
        simp [mapSet, hb, mapGet, List.find?]
      · have hbt : (k' == t) = false := beq_eq_false_iff_ne.mpr ht
        simpa [mapSet, hb, mapGet, List.find?, hbt] using ih


/-! Equation lemmas for the approval-store operations. -/

theorem grantApproval_none (st : ApprovalManagerState) (token : String)
    (approver : CallerIdentity) (now : Int) (h : getApproval st token = none) :
    grantApproval st token approver now =
      ({ success := false, error := some "Approval token not found" }, st) := by
  unfold grantApproval
  simp only [h]

theorem grantApproval_nonpending (st : ApprovalManagerState) (token : String)
    (approver : CallerIdentity) (now : Int) (a : PendingApproval)
    (h : getApproval st token = some a) (hs : a.status ≠ .pending) :
    grantApproval st token approver now =
      ({ success := false, error := some ("Approval is already " ++ statusString a.status) }, st) := by
  unfold grantApproval
  simp only [h]
  rw [if_pos hs]

theorem grantApproval_lazy_expiry (st : ApprovalManagerState) (token : String)
    (approver : CallerIdentity) (now : Int) (a : PendingApproval) (e : Int)
    (h : getApproval st token = some a) (hs : a.status = .pending)
    (he : a.expiresAt = some e) (hp : e < now) :
    grantApproval st token approver now =
      ({ success := false, error := some "Approval token has expired" },
       { st with pendingApprovals :=
           mapSet st.pendingApprovals token { a with status := ApprovalStatus.expired } }) := by
  unfold grantApproval
  simp only [h]
  rw [if_neg (by simp [hs])]
  rw [if_pos (by rw [he]; simpa using hp)]

theorem grantApproval_ok (st : ApprovalManagerState) (token : String)
    (approver : CallerIdentity) (now : Int) (a : PendingApproval)
    (h : getApproval st token = some a) (hs : a.status = .pending)
    (hexp : ∀ e, a.expiresAt = some e → ¬ e < now) :
    grantApproval st token approver now =
      ({ success := true, approval := some { a with status := ApprovalStatus.approved } },
       { st with pendingApprovals :=
           mapSet st.pendingApprovals token { a with status := ApprovalStatus.approved } }) := by
  unfold grantApproval
  simp only [h]
  rw [if_neg (by simp [hs])]
  rw [if_neg (by cases hae : a.expiresAt with
    | none => simp
    | some e => simpa using hexp e hae)]

theorem denyApproval_none (st : ApprovalManagerState) (token : String)
    (denier : CallerIdentity) (h : getApproval st token = none) :
    denyApproval st token denier =
      ({ success := false, error := some "Approval token not found" }, st) := by
  unfold denyApproval
  simp only [h]

theorem denyApproval_nonpending (st : ApprovalManagerState) (token : String)
    (denier : CallerIdentity) (a : PendingApproval)
    (h : getApproval st token = some a) (hs : a.status ≠ .pending) :
    denyApproval st token denier =
      ({ success := false, error := some ("Approval is already " ++ statusString a.status) }, st) := by
  unfold denyApproval
  simp only [h]
  rw [if_pos hs]

theorem denyApproval_ok (st : ApprovalManagerState) (token : String)
    (denier : CallerIdentity) (a : PendingApproval)
    (h : getApproval st token = some a) (hs : a.status = .pending) :
    denyApproval st token denier =
      ({ success := true, approval := some { a with status := ApprovalStatus.denied } },
       { st with pendingApprovals :=
           mapSet st.pendingApprovals token { a with status := ApprovalStatus.denied } }) := by
  unfold denyApproval
  simp only [h]
  rw [if_neg (by simp [hs])]


/-- A grant (on any token) leaves a non-pending record untouched. -/
theorem grant_preserves_nonpending (st : ApprovalManagerState) (t' t : String)
    (approver : CallerIdentity) (now : Int) (a : PendingApproval)
    (h : getApproval st t = some a) (hs : a.status ≠ .pending) :
    getApproval (grantApproval st t' approver now).2 t = some a := by
  cases hb : getApproval st t' with
  | none => rw [grantApproval_none st t' approver now hb]; exact h
  | some b =>
    by_cases hp : b.status = .pending
    · have hne : t' ≠ t := by
        intro he
        subst he
        rw [h] at hb
        injection hb with hba
        subst hba
        exact hs hp
      by_cases hc : ∃ e, b.expiresAt = some e ∧ e < now
      · obtain ⟨e, he, hlt⟩ := hc
        rw [grantApproval_lazy_expiry st t' approver now b e hb hp he hlt]
        simpa [getApproval, mapGet_mapSet_ne _ _ _ _ hne] using h
      · push_neg at hc
        rw [grantApproval_ok st t' approver now b hb hp (fun e he => not_lt.mpr (hc e he))]
        simpa [getApproval, mapGet_mapSet_ne _ _ _ _ hne] using h
    · rw [grantApproval_nonpending st t' approver now b hb hp]
      exact h

/-- A denial (on any token) leaves a non-pending record untouched. -/
theorem deny_preserves_nonpending (st : ApprovalManagerState) (t' t : String)
    (denier : CallerIdentity) (a : PendingApproval)
    (h : getApproval st t = some a) (hs : a.status ≠ .pending) :
    getApproval (denyApproval st t' denier).2 t = some a := by
  cases hb : getApproval st t' with
  | none => rw [denyApproval_none st t' denier hb]; exact h
  | some b =>
    by_cases hp : b.status = .pending
    · have hne : t' ≠ t := by
        intro he
        subst he
        rw [h] at hb
        injection hb with hba
        subst hba
        exact hs hp
      rw [denyApproval_ok st t' denier b hb hp]
      simpa [getApproval, mapGet_mapSet_ne _ _ _ _ hne] using h
    · rw [denyApproval_nonpending st t' denier b hb hp]
      exact h

/-- An expiry sweep (on any token) leaves a non-pending record untouched. -/
theorem expire_preserves_nonpending (st : ApprovalManagerState) (t' t : String)
    (a : PendingApproval)
    (h : getApproval st t = some a) (hs : a.status ≠ .pending) :
    getApproval (expireApproval st t') t = some a := by
  cases hb : getApproval st t' with
  | none => simp only [expireApproval, hb]; exact h
  | some b =>
    by_cases hp : b.status = .pending
    · have hne : t' ≠ t := by
        intro he
        subst he
        rw [h] at hb
        injection hb with hba
        subst hba
        exact hs hp
      simp only [expireApproval, hb]
      rw [if_pos hp]
      simpa [getApproval, mapGet_mapSet_ne _ _ _ _ hne] using h
    · simp only [expireApproval, hb]
      rw [if_neg hp]
      exact h


/-- C6: a grant on a pending record whose expiry time is strictly in the
past fails with the expired-token message, and the stored record is
flipped to `expired` (it is neither left `pending` nor approved). -/
theorem grant_lazy_expiry_flips_record (st : ApprovalManagerState) (token : String)
    (approver : CallerIdentity) (now : Int) (a : PendingApproval) (e : Int)
    (h : getApproval st token = some a) (hs : a.status = .pending)
    (he : a.expiresAt = some e) (hp : e < now) :
    (grantApproval st token approver now).1.success = false ∧
    (grantApproval st token approver now).1.error = some "Approval token has expired" ∧
    getApproval (grantApproval st token approver now).2 token =
      some { a with status := ApprovalStatus.expired } := by
  rw [grantApproval_lazy_expiry st token approver now a e h hs he hp]
  refine ⟨rfl, rfl, ?_⟩
  simp [getApproval, mapGet_mapSet_self]

theorem grant_lazy_expiry_flips_record_witness :
    (grantApproval storePendingExpired "tok-1" humanCaller 100).1.success = false ∧
    (grantApproval storePendingExpired "tok-1" humanCaller 100).1.error =
      some "Approval token has expired" ∧
    getApproval (grantApproval storePendingExpired "tok-1" humanCaller 100).2 "tok-1" =
      some { pendingExpiredRec with status := ApprovalStatus.expired } :=
  grant_lazy_expiry_flips_record storePendingExpired "tok-1" humanCaller 100
    pendingExpiredRec 50 (by decide) (by decide) (by decide) (by decide)

/-- C7: a denial on a pending record succeeds and flips it to `denied`
even when its expiry time is already in the past, while a grant on the
same record at the same moment fails — deny performs no lazy expiry
check. -/
theorem deny_ignores_expiry (st : ApprovalManagerState) (token : String)
    (denier : CallerIdentity) (now : Int) (a : PendingApproval) (e : Int)
    (h : getApproval st token = some a) (hs : a.status = .pending)
    (he : a.expiresAt = some e) (hp : e < now) :
    (denyApproval st token denier).1.success = true ∧
    (denyApproval st token denier).1.approval = some { a with status := ApprovalStatus.denied } ∧
    getApproval (denyApproval st token denier).2 token =
      some { a with status := ApprovalStatus.denied } ∧
    (grantApproval st token denier now).1.success = false := by
  rw [denyApproval_ok st token denier a h hs]
  refine ⟨rfl, rfl, ?_, ?_⟩
  · simp [getApproval, mapGet_mapSet_self]
  · rw [grantApproval_lazy_expiry st token denier now a e h hs he hp]

theorem deny_ignores_expiry_witness :
    (denyApproval storePendingExpired "tok-1" humanCaller).1.success = true ∧
    (denyApproval storePendingExpired "tok-1" humanCaller).1.approval =
      some { pendingExpiredRec with status := ApprovalStatus.denied } ∧
    getApproval (denyApproval storePendingExpired "tok-1" humanCaller).2 "tok-1" =
      some { pendingExpiredRec with status := ApprovalStatus.denied } ∧
    (grantApproval storePendingExpired "tok-1" humanCaller 100).1.success = false :=
  deny_ignores_expiry storePendingExpired "tok-1" humanCaller 100
    pendingExpiredRec 50 (by decide) (by decide) (by decide) (by decide)

/-- C10: the approver / denier identity has no influence on the outcome
or the resulting store state of a grant or a denial. -/
theorem approver_identity_irrelevant (st : ApprovalManagerState) (token : String)
    (a b : CallerIdentity) (now : Int) :
    grantApproval st token a now = grantApproval st token b now ∧
    denyApproval st token a = denyApproval st token b :=
  ⟨rfl, rfl⟩


/-- C8: on a non-pending record both grant and deny fail with an
already-processed error naming the current status and leave the store
untouched, and no store operation (grant, deny, expiry sweep, on any
token) changes the record again; a grant on a pending unexpired record
succeeds, and a second grant on the same token then fails with
"Approval is already approved". -/
theorem terminal_states_immutable (st : ApprovalManagerState) (t t' : String)
    (approver denier : CallerIdentity) (now : Int) (a : PendingApproval)
    (h : getApproval st t = some a) :
    (a.status ≠ .pending →
      (grantApproval st t approver now).1.success = false ∧
      (grantApproval st t approver now).1.error =
        some ("Approval is already " ++ statusString a.status) ∧
      (grantApproval st t approver now).2 = st ∧
      (denyApproval st t denier).1.success = false ∧
      (denyApproval st t denier).1.error =
        some ("Approval is already " ++ statusString a.status) ∧
      (denyApproval st t denier).2 = st ∧
      getApproval (grantApproval st t' approver now).2 t = some a ∧
      getApproval (denyApproval st t' denier).2 t = some a ∧
      getApproval (expireApproval st t') t = some a) ∧
    (a.status = .pending → (∀ e, a.expiresAt = some e → ¬ e < now) →
      (grantApproval st t approver now).1.success = true ∧
      getApproval (grantApproval st t approver now).2 t =
        some { a with status := ApprovalStatus.approved } ∧
      (grantApproval (grantApproval st t approver now).2 t approver now).1.success = false ∧
      (grantApproval (grantApproval st t approver now).2 t approver now).1.error =
        some "Approval is already approved") := by
  constructor
  · intro hs
    rw [grantApproval_nonpending st t approver now a h hs,
        denyApproval_nonpending st t denier a h hs]
    exact ⟨rfl, rfl, rfl, rfl, rfl, rfl,
      grant_preserves_nonpending st t' t approver now a h hs,
      deny_preserves_nonpending st t' t denier a h hs,
      expire_preserves_nonpending st t' t a h hs⟩
  · intro hs hexp
    have hgr := grantApproval_ok st t approver now a h hs hexp
    have hget : getApproval (grantApproval st t approver now).2 t =
        some { a with status := ApprovalStatus.approved } := by
      rw [hgr]
      simp [getApproval, mapGet_mapSet_self]
    refine ⟨by rw [hgr], hget, ?_, ?_⟩
    · rw [grantApproval_nonpending _ t approver now _ hget (by simp)]
    · rw [grantApproval_nonpending _ t approver now _ hget (by simp)]
      rfl

theorem terminal_states_immutable_witness :
    ((grantApproval storeDenied "tok-1" humanCaller 100).1.success = false ∧
     (grantApproval storeDenied "tok-1" humanCaller 100).1.error =
       some "Approval is already denied" ∧
     (grantApproval storeDenied "tok-1" humanCaller 100).2 = storeDenied ∧
     (denyApproval storeDenied "tok-1" humanCaller).1.success = false ∧
     (denyApproval storeDenied "tok-1" humanCaller).1.error =
       some "Approval is already denied" ∧
     (denyApproval storeDenied "tok-1" humanCaller).2 = storeDenied ∧
     getApproval (grantApproval storeDenied "tok-1" humanCaller 100).2 "tok-1" =
       some deniedRec ∧
     getApproval (denyApproval storeDenied "tok-1" humanCaller).2 "tok-1" = some deniedRec ∧
     getApproval (expireApproval storeDenied "tok-1") "tok-1" = some deniedRec) ∧
    ((grantApproval storePendingFresh "tok-1" humanCaller 100).1.success = true ∧
     getApproval (grantApproval storePendingFresh "tok-1" humanCaller 100).2 "tok-1" =
       some { pendingFreshRec with status := ApprovalStatus.approved } ∧
     (grantApproval (grantApproval storePendingFresh "tok-1" humanCaller 100).2 "tok-1"
        humanCaller 100).1.success = false ∧
     (grantApproval (grantApproval storePendingFresh "tok-1" humanCaller 100).2 "tok-1"
        humanCaller 100).1.error = some "Approval is already approved") :=
  ⟨(terminal_states_immutable storeDenied "tok-1" "tok-1" humanCaller humanCaller 100
      deniedRec (by decide)).1 (by decide),
   (terminal_states_immutable storePendingFresh "tok-1" "tok-1" humanCaller humanCaller 100
      pendingFreshRec (by decide)).2 (by decide)
     (by
       intro e he
       rw [show pendingFreshRec.expiresAt = some 999999 from rfl] at he
       injection he with h'
       omega)⟩



/-- The source's rule matcher agrees with the amended declarative
satisfaction predicate. -/
theorem matchesRule_iff_satisfiedAmended (context : ToolCallContext) (rule : PolicyRule) :
    matchesRule context rule = true ↔ specRuleSatisfiedAmended context rule := by
  unfold matchesRule specRuleSatisfiedAmended
  simp only [Bool.and_eq_true]
  constructor
  · rintro ⟨⟨⟨⟨h1, h2⟩, h3⟩, h4⟩, h5⟩
    refine ⟨?_, ?_, ?_, ?_, ?_⟩
    · intro t ht hne
      simp only [ht] at h1
      rcases (show t = "" ∨ matchesPattern context.tool t = true by simpa using h1) with h | h
      · exact absurd h hne
      · exact h
    · intro a ha hne
      simp only [ha] at h2
      rcases (show a = "" ∨ matchesPattern context.action a = true by simpa using h2) with h | h
      · exact absurd h hne
      · exact h
    · intro ms hms
      simp only [hms] at h3
      have hlt : ¬ SEVERITY_ORDER context.severity < SEVERITY_ORDER ms := by simpa using h3
      exact Nat.not_lt.mp hlt
    · intro ct hct
      simp only [hct] at h4
      exact eq_of_beq h4
    · intro f hf
      simp only [hf] at h5
      exact h5
  · rintro ⟨h1, h2, h3, h4, h5⟩
    refine ⟨⟨⟨⟨?_, ?_⟩, ?_⟩, ?_⟩, ?_⟩
    · cases ht : rule.matchSpec.tool with
      | none => rfl
      | some t =>
        by_cases hne : t = ""
        · subst hne; rfl
        · simp [h1 t ht hne]
    · cases ha : rule.matchSpec.action with
      | none => rfl
      | some a =>
        by_cases hne : a = ""
        · subst hne; rfl
        · simp [h2 a ha hne]
    · cases hms : rule.matchSpec.minSeverity with
      | none => rfl
      | some ms =>
        have hle := h3 ms hms
        simp [Nat.not_lt.mpr hle]
    · cases hct : rule.matchSpec.callerType with
      | none => rfl
      | some ct =>
        simp [h4 ct hct]
    · cases hf : rule.matchSpec.custom with
      | none => rfl
      | some f =>
        exact h5 f hf



/-- The rule loop returns the decision of the first matching rule. -/
theorem evalRulesList_first_match (tok : String) (config : PolicyConfig)
    (ctx : ToolCallContext) :
    ∀ (rules : List PolicyRule) (i : Nat) (hi : i < rules.length),
      matchesRule ctx (rules.get ⟨i, hi⟩) = true →
      (∀ j (hj : j < i), matchesRule ctx (rules.get ⟨j, Nat.lt_trans hj hi⟩) = false) →
      evalRulesList tok config ctx rules = ruleDecision tok (rules.get ⟨i, hi⟩) := by
  intro rules
  induction rules with
  | nil => intro i hi; exact absurd hi (by simp)
  | cons r rs ih =>
    intro i hi hm hfirst
    cases i with
    | zero =>
      simp only [List.get] at hm
      simp [evalRulesList, hm]
    | succ n =>
      have h0 : matchesRule ctx r = false := hfirst 0 (Nat.succ_pos n)
      simp only [evalRulesList, h0, Bool.false_eq_true, if_false]
      exact ih n (Nat.lt_of_succ_lt_succ hi) hm
        (fun j hj => hfirst (j + 1) (Nat.succ_lt_succ hj))

/-- The rule loop falls through to the default decision when no rule
matches. -/
theorem evalRulesList_no_match (tok : String) (config : PolicyConfig)
    (ctx : ToolCallContext) :
    ∀ (rules : List PolicyRule), (∀ r ∈ rules, matchesRule ctx r = false) →
      evalRulesList tok config ctx rules = defaultDecision tok config := by
  intro rules
  induction rules with
  | nil => intro _; rfl
  | cons r rs ih =>
    intro h
    have h0 : matchesRule ctx r = false := h r (List.mem_cons_self r rs)
    simp only [evalRulesList, h0, Bool.false_eq_true, if_false]
    exact ih fun r' hr' => h r' (List.mem_cons_of_mem r hr')

/-- C2: the decision returned by `evaluatePolicy` carries an approval
token exactly when its effect is review, whether the effect comes from
a matched rule or from the policy default. -/
theorem decision_token_iff_review (tok : String) (config : PolicyConfig)
    (ctx : ToolCallContext) :
    (evaluatePolicy tok config ctx).approvalToken.isSome = true ↔
    (evaluatePolicy tok config ctx).effect = .review := by
  unfold evaluatePolicy
  induction config.rules with
  | nil =>
    simp only [evalRulesList]
    cases h : config.defaultEffect <;> simp [defaultDecision, h]
  | cons r rs ih =>
    cases hm : matchesRule ctx r with
    | false => simpa [evalRulesList, hm] using ih
    | true =>
      cases h : r.effect <;> simp [evalRulesList, hm, ruleDecision, h]



/-- C1 counterexample: a rule whose tool glob is present but empty is
not fully satisfied in the claim's sense (an empty glob only matches an
empty tool name), yet `evaluatePolicy` still applies it instead of the
policy default, because the source skips falsy (empty) pattern
fields. -/
theorem first_match_claim_counterexample :
    (¬ specRuleSatisfied sampleContext ruleEmptyTool) ∧
    emptyPatternConfig.rules = [ruleEmptyTool] ∧
    emptyPatternConfig.defaultEffect = PolicyEffect.allow ∧
    (evaluatePolicy "tk" emptyPatternConfig sampleContext).effect = PolicyEffect.deny ∧
    (evaluatePolicy "tk" emptyPatternConfig sampleContext).rule = some "rule-empty-tool" := by
  refine ⟨?_, rfl, rfl, by decide, by decide⟩
  intro h
  have hp := h.1 "" rfl
  exact absurd hp (by decide)

/-- C1 amended: `evaluatePolicy` returns the effect, reason and rule id
of the first rule in list order whose match-spec is satisfied in the
amended sense (present-but-empty globs match anything); if no rule is
satisfied it returns the policy's default effect with its default
reason (or a synthesized one). -/
theorem evaluate_first_satisfied_rule (tok : String) (config : PolicyConfig)
    (ctx : ToolCallContext) :
    (∀ i (hi : i < config.rules.length),
      specRuleSatisfiedAmended ctx (config.rules.get ⟨i, hi⟩) →
      (∀ j (hj : j < i), ¬ specRuleSatisfiedAmended ctx (config.rules.get ⟨j, Nat.lt_trans hj hi⟩)) →
      (evaluatePolicy tok config ctx).effect = (config.rules.get ⟨i, hi⟩).effect ∧
      (evaluatePolicy tok config ctx).rule = some (config.rules.get ⟨i, hi⟩).id ∧
      (evaluatePolicy tok config ctx).reason =
        strOr (config.rules.get ⟨i, hi⟩).reason
          (getDefaultReason (config.rules.get ⟨i, hi⟩).effect (some (config.rules.get ⟨i, hi⟩)))) ∧
    ((∀ r ∈ config.rules, ¬ specRuleSatisfiedAmended ctx r) →
      (evaluatePolicy tok config ctx).effect = config.defaultEffect ∧
      (evaluatePolicy tok config ctx).rule = none ∧
      (evaluatePolicy tok config ctx).reason =
        strOr config.defaultReason (getDefaultReason config.defaultEffect none)) := by
  constructor
  · intro i hi hsat hfirst
    have hm : matchesRule ctx (config.rules.get ⟨i, hi⟩) = true :=
      (matchesRule_iff_satisfiedAmended ctx _).mpr hsat
    have hf : ∀ j (hj : j < i),
        matchesRule ctx (config.rules.get ⟨j, Nat.lt_trans hj hi⟩) = false := by
      intro j hj
      exact Bool.eq_false_iff.mpr fun hb =>
        hfirst j hj ((matchesRule_iff_satisfiedAmended ctx _).mp hb)
    unfold evaluatePolicy
    rw [evalRulesList_first_match tok config ctx config.rules i hi hm hf]
    exact ⟨rfl, rfl, rfl⟩
  · intro hnone
    have hf : ∀ r ∈ config.rules, matchesRule ctx r = false := fun r hr =>
      Bool.eq_false_iff.mpr fun hb =>
        hnone r hr ((matchesRule_iff_satisfiedAmended ctx r).mp hb)
    unfold evaluatePolicy
    rw [evalRulesList_no_match tok config ctx config.rules hf]
    exact ⟨rfl, rfl, rfl⟩

theorem evaluate_first_satisfied_rule_witness :
    (evaluatePolicy "tk" twoRuleConfig sampleContext).effect = PolicyEffect.review ∧
    (evaluatePolicy "tk" twoRuleConfig sampleContext).rule = some "rule-agent" ∧
    (evaluatePolicy "tk" twoRuleConfig sampleContext).reason =
      "Operation requires human approval (rule: rule-agent)" := by
  have h := (evaluate_first_satisfied_rule "tk" twoRuleConfig sampleContext).1 1 (by decide)
    ((matchesRule_iff_satisfiedAmended sampleContext ruleAgent).mp (by decide))
    (by
      intro j hj hsat
      have hj0 : j = 0 := Nat.lt_one_iff.mp hj
      subst hj0
      have hb := (matchesRule_iff_satisfiedAmended sampleContext ruleCritical).mpr hsat
      exact absurd hb (by decide))
  exact ⟨h.1, h.2.1, h.2.2.trans (by decide)⟩



/-- C3 (code behaviour at the failing input): granting an unknown token
through the gateway throws the store's raw message "Approval token not
found" — which does not contain "failed to grant approval", even
case-insensitively — leaves the state unchanged, performs no audit
notification, and never invokes the executor. -/
theorem grant_unknown_token_behavior :
    grantApprovalAndExecute allowGateway "unknown-token" humanCaller (.ok "out") 0 =
      (.error "Approval token not found", allowGateway, []) ∧
    strContainsCI "Approval token not found" "failed to grant approval" = false ∧
    countExecutorRuns
      (grantApprovalAndExecute allowGateway "unknown-token" humanCaller (.ok "out") 0).2.2 = 0 := by
  refine ⟨rfl, by decide, rfl⟩

/-- C4: on an allowed call whose executor throws, `executeToolCall`
returns (never throws) an allowed result carrying the executor's error
message, with exactly one execution-failure notification and exactly
one executor invocation. -/
theorem allowed_executor_failure_captured (st : GatewayState)
    (callId tok tool action : String) (severity : OperationSeverity)
    (caller : CallerIdentity) (args metadata : Option OpaqueMap) (now : Int) (msg : String)
    (hallow : (evaluatePolicy tok st.policyConfig
        (mkToolCallContext callId tool action severity caller args metadata now)).effect =
      PolicyEffect.allow) :
    (executeToolCall st callId tok tool action severity caller (.error msg) args metadata now).1 =
      .ok { allowed := true
            decision := evaluatePolicy tok st.policyConfig
              (mkToolCallContext callId tool action severity caller args metadata now)
            context := mkToolCallContext callId tool action severity caller args metadata now
            result := some { success := false, error := some msg } } ∧
    countExecutionFailures
      (executeToolCall st callId tok tool action severity caller
        (.error msg) args metadata now).2.2 = 1 ∧
    countExecutorRuns
      (executeToolCall st callId tok tool action severity caller
        (.error msg) args metadata now).2.2 = 1 := by
  have heval : evaluateToolCall st callId tok tool action severity caller args metadata now =
      (.ok { allowed := true
             decision := evaluatePolicy tok st.policyConfig
               (mkToolCallContext callId tool action severity caller args metadata now)
             context := mkToolCallContext callId tool action severity caller args metadata now },
       st,
       [AuditEvent.toolCall
          (mkToolCallContext callId tool action severity caller args metadata now)
          (evaluatePolicy tok st.policyConfig
            (mkToolCallContext callId tool action severity caller args metadata now))]) := by
    simp only [evaluateToolCall]
    rw [hallow]
  unfold executeToolCall
  rw [heval]
  exact ⟨rfl, rfl, rfl⟩

theorem allowed_executor_failure_captured_witness :
    countExecutionFailures
      (executeToolCall allowGateway "call-1" "tk" "jira" "add_comment" .medium agentCaller
        (.error "boom") none none 0).2.2 = 1 ∧
    countExecutorRuns
      (executeToolCall allowGateway "call-1" "tk" "jira" "add_comment" .medium agentCaller
        (.error "boom") none none 0).2.2 = 1 :=
  (allowed_executor_failure_captured allowGateway "call-1" "tk" "jira" "add_comment" .medium
    agentCaller none none 0 "boom" (by decide)).2

/-- C5 (code behaviour at the failing input): an approval created with
an explicit `ttl = 0` is NOT immediately expired — the source's falsy
check makes it fall back to the default TTL (60000 here), so a grant
one millisecond after creation succeeds instead of failing with the
expired error. -/
theorem zero_ttl_behavior :
    createApproval emptyStore60k sampleContext reviewDecision (some 0) 1000 =
      .ok (zeroTtlCreatedRec, zeroTtlStore) ∧
    zeroTtlCreatedRec.createdAt = 1000 ∧
    zeroTtlCreatedRec.expiresAt = some 61000 ∧
    (grantApproval zeroTtlStore "tok-1" humanCaller 1001).1.success = true ∧
    (grantApproval zeroTtlStore "tok-1" humanCaller 1001).1.error = none := by
  refine ⟨rfl, rfl, rfl, by decide, by decide⟩



/-- `splitOnChar` never returns an empty list of segments. -/
theorem splitOnChar_ne_nil (sep : Char) (cs : List Char) : splitOnChar sep cs ≠ [] := by
  cases cs with
  | nil => simp [splitOnChar]
  | cons c cs =>
    simp only [splitOnChar]
    split
    · simp
    · split
      · simp
      · simp

/-- `dotStarChain` decides exactly the decompositions
`w₁ ++ p₁ ++ ⋯ ++ wₙ ++ pₙ` whose runs `wᵢ` are free of line
terminators. -/
theorem dotStarChain_iff (ps : List (List Char)) :
    ∀ r, dotStarChain ps r = true ↔
      ∃ ws, ws.length = ps.length ∧ (∀ w ∈ ws, dotRun w = true) ∧
        r = chainConcat ps ws := by
  induction ps with
  | nil =>
    intro r
    constructor
    · intro h
      exact ⟨[], rfl, by simp, by simpa [dotStarChain, List.isEmpty_iff] using h⟩
    · rintro ⟨ws, hlen, _, hr⟩
      have : ws = [] := List.length_eq_zero.mp hlen
      subst this
      simp [dotStarChain, chainConcat] at hr ⊢
      exact hr
  | cons p ps ih =>
    cases ps with
    | nil =>
      intro r
      simp only [dotStarChain, Bool.and_eq_true]
      constructor
      · rintro ⟨hsuf, hrun⟩
        obtain ⟨w, hw⟩ := List.isSuffixOf_iff_suffix.mp hsuf
        have hwlen : r.length - p.length = w.length := by
          rw [← hw]
          simp [List.length_append]
        rw [hwlen, ← hw, List.take_left] at hrun
        refine ⟨[w], rfl, ?_, by simp [chainConcat, hw.symm]⟩
        intro w' hw'
        simp only [List.mem_singleton] at hw'
        subst hw'
        exact hrun
      · rintro ⟨ws, hlen, hruns, hr⟩
        obtain ⟨w, ws', rfl⟩ : ∃ w ws', ws = w :: ws' := by
          cases ws with
          | nil => simp at hlen
          | cons w ws' => exact ⟨w, ws', rfl⟩
        have hw : ws' = [] := by simpa using hlen
        subst hw
        simp only [chainConcat, List.append_nil] at hr
        constructor
        · exact List.isSuffixOf_iff_suffix.mpr ⟨w, by simp [hr]⟩
        · have hwlen : r.length - p.length = w.length := by
            rw [hr]
            simp [List.length_append]
          rw [hwlen, hr, List.take_left]
          exact hruns w (by simp)
    | cons q qs =>
      intro r
      simp only [dotStarChain, List.any_eq_true, List.mem_range, Bool.and_eq_true]
      constructor
      · rintro ⟨i, hi, ⟨hruni, hpre⟩, hrest⟩
        obtain ⟨t, ht⟩ := List.isPrefixOf_iff_prefix.mp hpre
        have hdrop : List.drop (i + p.length) r = t := by
          rw [← List.drop_drop, ← ht, List.drop_left]
        rw [hdrop] at hrest
        obtain ⟨ws, hlen, hruns, hws⟩ := (ih t).mp hrest
        refine ⟨r.take i :: ws, by simp [hlen], ?_, ?_⟩
        · intro w hw
          rcases List.mem_cons.mp hw with h | h
          · subst h
            exact hruni
          · exact hruns w h
        · simp only [chainConcat]
          rw [← hws, List.append_assoc, ht]
          exact (List.take_append_drop i r).symm
      · rintro ⟨ws, hlen, hruns, hr⟩
        obtain ⟨w, ws', rfl⟩ : ∃ w ws', ws = w :: ws' := by
          cases ws with
          | nil => simp at hlen
          | cons w ws' => exact ⟨w, ws', rfl⟩
        have hlen' : ws'.length = (q :: qs).length := by simpa using hlen
        simp only [chainConcat] at hr
        refine ⟨w.length, ?_, ⟨?_, ?_⟩, ?_⟩
        · rw [hr]
          simp [List.length_append]
          omega
        · have htake : r.take w.length = w := by
            rw [hr, List.append_assoc, List.take_left]
          rw [htake]
          exact hruns w (by simp)
        · rw [hr, List.append_assoc, List.drop_left]
          exact List.isPrefixOf_iff_prefix.mpr (List.prefix_append p _)
        · have hd : List.drop (w.length + p.length) r = chainConcat (q :: qs) ws' := by
            rw [hr, ← List.length_append w p, List.drop_left]
          rw [hd]
          exact (ih _).mpr ⟨ws', hlen', fun w' h => hruns w' (by simp [h]), rfl⟩

/-- Bridging lemma: on length-matched runs, `starFill` is the head
segment followed by the chain concatenation. -/
theorem starFill_eq_chainConcat :
    ∀ (ps : List (List Char)) (p : List Char) (ws : List (List Char)),
      ws.length = ps.length → starFill (p :: ps) ws = p ++ chainConcat ps ws := by
  intro ps
  induction ps with
  | nil =>
    intro p ws h
    have : ws = [] := List.length_eq_zero.mp h
    subst this
    simp [starFill, chainConcat]
  | cons q qs ih =>
    intro p ws h
    obtain ⟨w, ws', rfl⟩ : ∃ w ws', ws = w :: ws' := by
      cases ws with
      | nil => simp at h
      | cons w ws' => exact ⟨w, ws', rfl⟩
    have h' : ws'.length = qs.length := by simpa using h
    simp only [starFill, chainConcat]
    rw [ih q ws' h']
    simp [List.append_assoc]

/-- C9 counterexample: the claim lets a `*` run be ANY run of
characters, but the source regex is compiled without the `s` (dotAll)
flag, so `.` rejects line terminators: "a\nb" equals "a*b" with the
`*` replaced by the run "\n" (so the claim says it matches), yet the
program's matcher rejects it; likewise "*" fails to match any value
containing a newline. -/
theorem glob_newline_counterexample :
    matchesGlobSpec "a\nb" "a*b" ∧ matchesPattern "a\nb" "a*b" = false ∧
    matchesGlobSpec "x\ny" "*" ∧ matchesPattern "x\ny" "*" = false := by
  refine ⟨⟨[['\n']], by decide, by decide⟩, by decide,
    ⟨[['x', '\n', 'y']], by decide, by decide⟩, by decide⟩

/-- C9 amended: the source's glob matcher is anchored and
case-insensitive — a pattern matches a value exactly when the
(case-folded) value equals the pattern with each `*` replaced by some
possibly-empty run of non-line-terminator characters (JavaScript `.`
without the dotAll flag), all other characters literal; a star-free
pattern requires equality up to case.  In particular "delete_*" matches
"delete_db" and "DELETE_DB" but not "update_db". -/
theorem glob_semantics (value pattern : String) :
    (matchesPattern value pattern = true ↔ matchesGlobSpecAmended value pattern) ∧
    matchesPattern "delete_db" "delete_*" = true ∧
    matchesPattern "DELETE_DB" "delete_*" = true ∧
    matchesPattern "update_db" "delete_*" = false := by
  refine ⟨?_, by decide, by decide, by decide⟩
  unfold matchesPattern matchesGlobSpecAmended
  cases hsplit : splitOnStar pattern with
  | nil => exact absurd hsplit (splitOnChar_ne_nil '*' (lowerChars pattern))
  | cons p ps =>
    show (p.isPrefixOf (lowerChars value) &&
        dotStarChain ps ((lowerChars value).drop p.length)) = true ↔
      ∃ ws, ws.length + 1 = (p :: ps).length ∧ (∀ w ∈ ws, dotRun w = true) ∧
        lowerChars value = starFill (p :: ps) ws
    rw [Bool.and_eq_true]
    constructor
    · rintro ⟨h1, h2⟩
      obtain ⟨t, ht⟩ := List.isPrefixOf_iff_prefix.mp h1
      have hdrop : (lowerChars value).drop p.length = t := by
        rw [← ht, List.drop_left]
      rw [hdrop] at h2
      obtain ⟨ws, hlen, hruns, hws⟩ := (dotStarChain_iff ps t).mp h2
      refine ⟨ws, by simp [hlen], hruns, ?_⟩
      rw [starFill_eq_chainConcat ps p ws hlen, ← hws, ht]
    · rintro ⟨ws, hlen, hruns, hv⟩
      have hlen' : ws.length = ps.length := by simpa using hlen
      rw [starFill_eq_chainConcat ps p ws hlen'] at hv
      constructor
      · rw [hv]
        exact List.isPrefixOf_iff_prefix.mpr (List.prefix_append p _)
      · have hd : (lowerChars value).drop p.length = chainConcat ps ws := by
          rw [hv, List.drop_left]
        rw [hd]
        exact (dotStarChain_iff ps _).mpr ⟨ws, hlen', hruns, rfl⟩

end SecureMCP
